import Mathlib

/-!
Verification of the virtualized file-tree rendering engine.

The development shallowly embeds the JavaScript sources:
- `LargeDataGenerator.flattenTree` (module3/LargeDataGenerator.js)
- `VirtualTreeView.updateVisibleData`, `VirtualTreeView.render`,
  `VirtualTreeView.setupEventListeners` (VirtualTreeView)
- `NodePool` (acquire / release / releaseAll / expand / resetElement / getStats)
- `ScrollOptimizations.rAF` wired to the scroll handler

JavaScript numbers appearing in layout arithmetic are modelled as rationals
(with explicit floor / ceil); ids are strings; JS `Set` objects are modelled
as insertion-ordered duplicate-free lists; `undefined` values flowing out of
`Array.prototype.pop` on an empty array are modelled with `Option`.
-/

namespace FileTree

/-- One record of the flattened node array produced by
`LargeDataGenerator.flattenTree`: `{id, name, type, level, parentId, hasChildren}`. -/
structure FlatNode where
  id : String
  name : String
  type : String
  level : Nat
  parentId : Option String
  hasChildren : Bool
deriving Repr, DecidableEq

/-- A hierarchical input item `{id, name, type, children?}`.  A missing
`children` field is modelled by the empty list (both behave identically in
`flattenTree`: the traversal into an empty list emits nothing). -/
inductive Item where
  | mk (id : String) (name : String) (type : String) (children : List Item)
deriving Repr

def Item.id : Item → String
  | .mk i _ _ _ => i

def Item.children : Item → List Item
  | .mk _ _ _ cs => cs

/-- The recursive `traverse(nodes, level, parentId)` closure inside
`LargeDataGenerator.flattenTree`: push a flat record for each node in order,
and recurse into `node.children` (with `level + 1` and the node id as
`parentId`) exactly when `node.type === 'folder'`.
`hasChildren` is `node.type === 'folder' && node.children.length > 0`. -/
def traverse : List Item → Nat → Option String → List FlatNode
  | [], _, _ => []
  | .mk i n t cs :: rest, level, parentId =>
    ⟨i, n, t, level, parentId, t == "folder" && !cs.isEmpty⟩ ::
      ((if t == "folder" then traverse cs (level + 1) (some i) else []) ++
        traverse rest level parentId)

/-- `LargeDataGenerator.flattenTree(tree)`: pre-order flattening of the whole
forest, ignoring expansion state. -/
def flattenTree (tree : List Item) : List FlatNode :=
  traverse tree 0 none

/-- The ancestor-walk loop in `VirtualTreeView.updateVisibleData`:
`while (parentId) { if (!expandedNodes.has(parentId)) return false;
parentNode = flattenedData.find(n => n.id === parentId); if (!parentNode)
break; parentId = parentNode.parentId }`.  The JS truthiness test
`while (parentId)` exits both on `null` and on the empty string.  The loop
is given explicit fuel; every call below passes `flattenedData.length`,
which is enough fuel for every terminating run that arises from
`flattenTree` output. -/
def chainExpanded (flat : List FlatNode) (expanded : List String) :
    Nat → Option String → Bool
  | _, none => true
  | 0, some _ => true
  | fuel + 1, some parentId =>
    if parentId == "" then true
    else if expanded.contains parentId then
      match flat.find? fun n => n.id == parentId with
      | none => true
      | some parentNode => chainExpanded flat expanded fuel parentNode.parentId
    else false

/-- `VirtualTreeView.updateVisibleData`: keep a flattened node when it is at
level 0, or when every folder on its `parentId` chain is in `expandedNodes`
(per `chainExpanded`); order is preserved.  (The `currentParents` set built
by the source loop is never read and is omitted.) -/
def updateVisibleData (flat : List FlatNode) (expanded : List String) :
    List FlatNode :=
  flat.filter fun node =>
    if node.level == 0 then true
    else chainExpanded flat expanded flat.length node.parentId

/-- Pre-order traversal annotated with the ancestor-id chain (nearest
ancestor first) of each emitted record.  Projecting the first components
recovers `traverse`; the second component supports reasoning about ancestor
chains. -/
def annTraverse : List Item → List String → List (FlatNode × List String)
  | [], _ => []
  | .mk i n t cs :: rest, anc =>
    (⟨i, n, t, anc.length, anc.head?, t == "folder" && !cs.isEmpty⟩, anc) ::
      ((if t == "folder" then annTraverse cs (i :: anc) else []) ++
        annTraverse rest anc)

/-- Claim-side visible sequence, written from the specification text: the
pre-order listing of every item of the forest whose full ancestor chain is
contained in the expansion set, paired with its depth (number of
ancestors).  It descends into all children lists. -/
def claimVisibleAux (expanded : List String) :
    List Item → List String → List (String × Nat)
  | [], _ => []
  | .mk i _ _ cs :: rest, anc =>
    (if anc.all (fun a => expanded.contains a) then [(i, anc.length)] else []) ++
      (claimVisibleAux expanded cs (i :: anc) ++ claimVisibleAux expanded rest anc)

/-- Claim-side contract of `flatten(T, E)` from the specification. -/
def claimVisible (forest : List Item) (expanded : List String) :
    List (String × Nat) :=
  claimVisibleAux expanded forest []

/-- Data-model well-formedness from the specification: files (more
precisely, every item whose `type` is not `"folder"`) own no children. -/
def filesChildless : List Item → Bool
  | [] => true
  | .mk _ _ t cs :: rest =>
    (t == "folder" || cs.isEmpty) && filesChildless cs && filesChildless rest

/-- All ids of the forest, in pre-order, descending into every child list. -/
def allIds : List Item → List String
  | [] => []
  | .mk i _ _ cs :: rest => i :: (allIds cs ++ allIds rest)

end FileTree

namespace FileTree

/-- Data-model well-formedness for the flatten/visibility claims: ids are
unique across the flattened forest, no id is the empty string, and files own
no children. -/
def WellFormed (forest : List Item) : Prop :=
  ((flattenTree forest).map FlatNode.id).Nodup ∧
    (∀ nd ∈ flattenTree forest, nd.id ≠ "") ∧ filesChildless forest = true

/-- Projecting the annotated traversal onto its first components recovers
`traverse`; the ancestor chain determines the `level` and `parentId`
arguments. -/
theorem annTraverse_map_fst (items : List Item) (anc : List String) :
    (annTraverse items anc).map Prod.fst = traverse items anc.length anc.head? := by
  induction items, anc using annTraverse.induct with
  | case1 anc => simp [annTraverse, traverse]
  | case2 i n t cs rest anc ih1 ih2 =>
    by_cases h : (t == "folder") = true
    · simp [annTraverse, traverse, h, ih1, ih2]
    · simp only [Bool.not_eq_true] at h
      simp [annTraverse, traverse, h, ih2]

/-- Each record emitted by the annotated traversal stores its chain length
as `level` and the nearest ancestor as `parentId`. -/
theorem annTraverse_fields (items : List Item) (anc : List String) :
    ∀ p ∈ annTraverse items anc,
      p.1.level = p.2.length ∧ p.1.parentId = p.2.head? := by
  induction items, anc using annTraverse.induct with
  | case1 anc => simp [annTraverse]
  | case2 i n t cs rest anc ih1 ih2 =>
    intro p hp
    by_cases h : (t == "folder") = true
    · simp only [annTraverse, h, if_true, List.mem_cons, List.mem_append] at hp
      rcases hp with rfl | hp | hp
      · exact ⟨rfl, rfl⟩
      · exact ih1 p hp
      · exact ih2 p hp
    · simp only [Bool.not_eq_true] at h
      simp only [annTraverse, h, Bool.false_eq_true, if_false, List.mem_cons,
        List.nil_append, List.mem_append] at hp
      rcases hp with rfl | hp
      · exact ⟨rfl, rfl⟩
      · exact ih2 p hp

/-- The ancestor chain of every emitted record is shorter than the initial
chain length plus the number of emitted records; with an empty initial
chain, shorter than the output length. -/
theorem annTraverse_chain_lt (items : List Item) (anc : List String) :
    ∀ p ∈ annTraverse items anc,
      p.2.length < anc.length + (annTraverse items anc).length := by
  induction items, anc using annTraverse.induct with
  | case1 anc => simp [annTraverse]
  | case2 i n t cs rest anc ih1 ih2 =>
    intro p hp
    by_cases h : (t == "folder") = true
    · simp only [annTraverse, h, if_true, List.mem_cons, List.mem_append] at hp
      rcases hp with rfl | hp | hp
      · simp [annTraverse, h]
      · have := ih1 p hp
        simp only [List.length_cons] at this
        simp [annTraverse, h]
        omega
      · have := ih2 p hp
        simp [annTraverse, h]
        omega
    · simp only [Bool.not_eq_true] at h
      simp only [annTraverse, h, Bool.false_eq_true, if_false, List.mem_cons,
        List.nil_append, List.mem_append] at hp
      rcases hp with rfl | hp
      · simp [annTraverse, h]
      · have := ih2 p hp
        simp [annTraverse, h]
        omega

/-- With duplicate-free ids, `Array.prototype.find` by id locates exactly
the member with that id. -/
theorem find_eq_of_nodup (flat : List FlatNode) (nd : FlatNode)
    (hN : (flat.map FlatNode.id).Nodup) (hmem : nd ∈ flat) :
    flat.find? (fun n => n.id == nd.id) = some nd := by
  induction flat with
  | nil => simp at hmem
  | cons hd tl ih =>
    simp only [List.map_cons, List.nodup_cons, List.mem_map] at hN
    rcases List.mem_cons.mp hmem with rfl | htl
    · simp [List.find?]
    · have hne : (hd.id == nd.id) = false := by
        rw [beq_eq_false_iff_ne]
        intro h
        exact hN.1 ⟨nd, htl, h.symm⟩
      simp only [List.find?, hne]
      exact ih hN.2 htl

/-- An ancestor chain is realized in a flattened list when each chain
element is the id of some record of the list whose own `parentId` is the
next chain element. -/
def ChainMem (flat : List FlatNode) : List String → Prop
  | [] => True
  | a :: rest =>
    (∃ nd ∈ flat, nd.id = a ∧ nd.parentId = rest.head?) ∧ ChainMem flat rest

/-- On a realized chain with unique non-empty ids and enough fuel, the
source's ancestor-walk loop computes exactly the conjunction of expansion
membership over the chain. -/
theorem chainExpanded_eq_all (flat : List FlatNode) (expanded : List String)
    (hN : (flat.map FlatNode.id).Nodup)
    (hne : ∀ nd ∈ flat, nd.id ≠ "") :
    ∀ (anc : List String) (fuel : Nat), ChainMem flat anc → anc.length ≤ fuel →
      chainExpanded flat expanded fuel anc.head? =
        anc.all (fun a => expanded.contains a) := by
  intro anc
  induction anc with
  | nil => intro fuel _ _; cases fuel <;> simp [chainExpanded]
  | cons a rest ih =>
    intro fuel hcm hlen
    obtain ⟨⟨nd, hndmem, hndid, hndpar⟩, hrest⟩ := hcm
    cases fuel with
    | zero => simp at hlen
    | succ f =>
      have hane : a ≠ "" := hndid ▸ hne nd hndmem
      have h1 : (a == "") = false := by simpa using hane
      have hfind : flat.find? (fun n => n.id == a) = some nd := by
        rw [← hndid]
        exact find_eq_of_nodup flat nd hN hndmem
      have hlen' : rest.length ≤ f := by simp at hlen; omega
      by_cases hc : expanded.contains a = true
      · simp only [List.head?_cons, chainExpanded, h1, Bool.false_eq_true,
          if_false, hc, if_true, hfind, hndpar, List.all_cons, Bool.true_and]
        exact ih f hrest hlen'
      · have hc' : expanded.contains a = false := by simpa using hc
        simp only [List.head?_cons, chainExpanded, h1, Bool.false_eq_true,
          if_false, hc', List.all_cons, Bool.false_and]

/-- Every chain produced by the annotated traversal is realized in `flat`,
provided all emitted records belong to `flat` and the initial chain is
realized. -/
theorem annTraverse_chainMem (flat : List FlatNode) :
    ∀ (items : List Item) (anc : List String),
      (∀ p ∈ annTraverse items anc, p.1 ∈ flat) → ChainMem flat anc →
      ∀ p ∈ annTraverse items anc, ChainMem flat p.2 := by
  intro items anc
  induction items, anc using annTraverse.induct with
  | case1 anc => simp [annTraverse]
  | case2 i n t cs rest anc ih1 ih2 =>
    intro hsub hanc p hp
    by_cases h : (t == "folder") = true
    · simp only [annTraverse, h, if_true, List.mem_cons, List.mem_append] at hp
      rcases hp with rfl | hp | hp
      · exact hanc
      · refine ih1 ?_ ?_ p hp
        · intro q hq
          apply hsub
          simp only [annTraverse, h, if_true, List.mem_cons, List.mem_append]
          exact Or.inr (Or.inl hq)
        · have hmem :
              ((⟨i, n, t, anc.length, anc.head?, t == "folder" && !cs.isEmpty⟩ :
                FlatNode), anc).1 ∈ flat := by
            apply hsub
            simp only [annTraverse, h, if_true, List.mem_cons]
            exact Or.inl trivial
          exact ⟨⟨_, hmem, rfl, rfl⟩, hanc⟩
      · refine ih2 ?_ hanc p hp
        intro q hq
        apply hsub
        simp only [annTraverse, h, if_true, List.mem_cons, List.mem_append]
        exact Or.inr (Or.inr hq)
    · simp only [Bool.not_eq_true] at h
      simp only [annTraverse, h, Bool.false_eq_true, if_false, List.nil_append,
        List.mem_cons] at hp
      rcases hp with rfl | hp
      · exact hanc
      · refine ih2 ?_ hanc p hp
        intro q hq
        apply hsub
        simp only [annTraverse, h, Bool.false_eq_true, if_false,
          List.nil_append, List.mem_cons]
        exact Or.inr hq

/-- On a childless-files forest, the claim-side visible sequence equals the
chain-filtered annotated traversal. -/
theorem claimVisibleAux_eq_annFilter (expanded : List String) :
    ∀ (items : List Item) (anc : List String), filesChildless items = true →
      claimVisibleAux expanded items anc =
        ((annTraverse items anc).filter
            (fun p => p.2.all (fun a => expanded.contains a))).map
          (fun p => (p.1.id, p.1.level)) := by
  intro items anc
  induction items, anc using annTraverse.induct with
  | case1 anc => simp [annTraverse, claimVisibleAux]
  | case2 i n t cs rest anc ih1 ih2 =>
    intro hfc
    simp only [filesChildless, Bool.and_eq_true, Bool.or_eq_true] at hfc
    obtain ⟨⟨hfold, hfcs⟩, hfrest⟩ := hfc
    by_cases h : (t == "folder") = true
    · simp only [claimVisibleAux, annTraverse, h, if_true, List.filter_cons,
        List.filter_append, List.map_append]
      rw [ih1 hfcs, ih2 hfrest]
      by_cases hall : (anc.all fun a => expanded.contains a) = true
      · rw [if_pos hall, if_pos hall]; simp
      · rw [if_neg hall, if_neg hall]; simp
    · simp only [Bool.not_eq_true] at h
      have hcs : cs = [] := by
        rcases hfold with hfold | hfold
        · rw [h] at hfold; simp at hfold
        · exact List.isEmpty_iff.mp hfold
      subst hcs
      simp only [claimVisibleAux, annTraverse, h, Bool.false_eq_true, if_false,
        List.nil_append, List.filter_cons]
      rw [ih2 hfrest]
      by_cases hall : (anc.all fun a => expanded.contains a) = true
      · rw [if_pos hall, if_pos hall]; simp [claimVisibleAux]
      · rw [if_neg hall, if_neg hall]; simp [claimVisibleAux]

end FileTree

namespace FileTree

/-- C1 (amended): for every item forest with unique non-empty ids and
childless files, and every expansion set, the visible sequence computed by
the code (`LargeDataGenerator.flattenTree` followed by
`VirtualTreeView.updateVisibleData`) consists exactly of the items whose
every ancestor on the path from a root lies in the expansion set, in
pre-order depth-first order, each listed with depth equal to its number of
ancestors. -/
theorem updateVisibleData_eq_claimVisible (forest : List Item)
    (expanded : List String) (hW : WellFormed forest) :
    (updateVisibleData (flattenTree forest) expanded).map
        (fun nd => (nd.id, nd.level)) =
      claimVisible forest expanded := by
  obtain ⟨hN, hne, hfc⟩ := hW
  have hflat : (annTraverse forest []).map Prod.fst = flattenTree forest :=
    annTraverse_map_fst forest []
  have hmem : ∀ p ∈ annTraverse forest [], p.1 ∈ flattenTree forest := by
    intro p hp
    rw [← hflat]
    exact List.mem_map_of_mem Prod.fst hp
  have hcm : ∀ p ∈ annTraverse forest [], ChainMem (flattenTree forest) p.2 :=
    annTraverse_chainMem (flattenTree forest) forest [] hmem trivial
  have hlen : ∀ p ∈ annTraverse forest [],
      p.2.length < (flattenTree forest).length := by
    intro p hp
    have h1 := annTraverse_chain_lt forest [] p hp
    have h2 : (annTraverse forest []).length = (flattenTree forest).length := by
      rw [← hflat, List.length_map]
    simpa [h2] using h1
  have key : ∀ p ∈ annTraverse forest [],
      (if p.1.level == 0 then true
        else chainExpanded (flattenTree forest) expanded
          (flattenTree forest).length p.1.parentId) =
        p.2.all (fun a => expanded.contains a) := by
    intro p hp
    obtain ⟨hlev, hpar⟩ := annTraverse_fields forest [] p hp
    cases hanc : p.2 with
    | nil =>
      rw [hanc] at hlev
      simp [hlev]
    | cons a rest =>
      rw [hanc] at hlev
      have : (p.1.level == 0) = false := by
        simp [hlev]
      rw [this, if_neg (by simp)]
      rw [hpar, hanc]
      rw [← hanc]
      exact chainExpanded_eq_all (flattenTree forest) expanded hN hne p.2
        (flattenTree forest).length (hcm p hp) (Nat.le_of_lt (hlen p hp))
  unfold updateVisibleData
  nth_rewrite 3 [← hflat]
  rw [List.filter_map, List.map_map]
  simp only [Function.comp_def]
  rw [List.filter_congr (fun p hp => key p hp)]
  rw [claimVisible, claimVisibleAux_eq_annFilter expanded forest [] hfc]

/-- The sample forest shipped with the repository (`sampleData`): a `src`
folder holding two files and a `components` subfolder with two files, plus
two root-level files. -/
def sampleForest : List Item :=
  [.mk "1" "src" "folder"
      [.mk "2" "index.js" "file" [],
       .mk "3" "styles.css" "file" [],
       .mk "4" "components" "folder"
         [.mk "5" "Button.js" "file" [], .mk "6" "Modal.js" "file" []]],
   .mk "7" "package.json" "file" [],
   .mk "8" "README.md" "file" []]

/-- Witness for C1 on the repository's sample data with only folder `1`
expanded. -/
theorem updateVisibleData_eq_claimVisible_witness :
    WellFormed sampleForest ∧
      (updateVisibleData (flattenTree sampleForest) ["1"]).map
          (fun nd => (nd.id, nd.level)) =
        claimVisible sampleForest ["1"] := by
  have hW : WellFormed sampleForest := by
    refine ⟨?_, ?_, ?_⟩ <;>
      simp [sampleForest, flattenTree, traverse, filesChildless]
  exact ⟨hW, updateVisibleData_eq_claimVisible sampleForest ["1"] hW⟩

/-- A forest whose root folder has the empty string as id, owning a single
file; ids are unique and files are childless. -/
def emptyIdForest : List Item :=
  [.mk "" "root" "folder" [.mk "c" "child" "file" []]]

/-- C1 counterexample to the claim as stated: with an empty expansion set,
the code emits the child `c` of the collapsed folder with id the empty
string (the ancestor walk treats the empty-string `parentId` as absent),
whereas the claimed characterization omits it. -/
theorem updateVisibleData_emptyId_counterexample :
    (updateVisibleData (flattenTree emptyIdForest) []).map
        (fun nd => (nd.id, nd.level)) ≠ claimVisible emptyIdForest [] := by
  simp [emptyIdForest, flattenTree, traverse, updateVisibleData,
    chainExpanded, claimVisible, claimVisibleAux]

end FileTree

namespace FileTree

/-- Helper for C6: on a childless-files forest, `traverse` emits one record
per item, in pre-order, regardless of any duplicate ids. -/
theorem traverse_map_id (items : List Item) (level : Nat)
    (parentId : Option String) (hfc : filesChildless items = true) :
    (traverse items level parentId).map FlatNode.id = allIds items := by
  induction items, level, parentId using traverse.induct with
  | case1 level parentId => simp [traverse, allIds]
  | case2 i n t cs rest level parentId ih1 ih2 =>
    simp only [filesChildless, Bool.and_eq_true, Bool.or_eq_true] at hfc
    obtain ⟨⟨hfold, hfcs⟩, hfrest⟩ := hfc
    by_cases h : (t == "folder") = true
    · simp [traverse, allIds, h, ih1 hfcs, ih2 hfrest]
    · simp only [Bool.not_eq_true] at h
      have hcs : cs = [] := by
        rcases hfold with hfold | hfold
        · rw [h] at hfold; simp at hfold
        · exact List.isEmpty_iff.mp hfold
      subst hcs
      simp [traverse, allIds, h, ih2 hfrest]

/-- C6 (amended): the flattener contains no duplicate-id detection at all:
it never fails and emits one entry per item in pre-order, so a forest with
two items sharing an id yields both occurrences (it does not reject the
input, keep only the first occurrence, or raise any error; no
`DuplicateIdError` exists in the code). -/
theorem flattenTree_no_duplicate_detection (forest : List Item)
    (hfc : filesChildless forest = true) :
    (flattenTree forest).map FlatNode.id = allIds forest :=
  traverse_map_id forest 0 none hfc

/-- A forest with two root files sharing the id `a`. -/
def dupForest : List Item :=
  [.mk "a" "first" "file" [], .mk "a" "second" "file" []]

/-- C6 counterexample: flattening a forest with a duplicated id emits both
occurrences and reports no error, contradicting the claimed
`DuplicateIdError` failure that keeps only the first occurrence. -/
theorem flattenTree_duplicate_counterexample :
    (flattenTree dupForest).map FlatNode.id = ["a", "a"] := by
  simp [dupForest, flattenTree, traverse]

/-- Witness for C6 (amended) at the duplicated-id forest. -/
theorem flattenTree_no_duplicate_detection_witness :
    filesChildless dupForest = true ∧
      (flattenTree dupForest).map FlatNode.id = allIds dupForest := by
  have hfc : filesChildless dupForest = true := by
    simp [dupForest, filesChildless]
  exact ⟨hfc, flattenTree_no_duplicate_detection dupForest hfc⟩

end FileTree

namespace FileTree

/-- The `{validStartIndex, validEndIndex}` pair computed at the top of
`VirtualTreeView.render`. -/
structure Window where
  startIndex : ℤ
  endIndex : ℤ
deriving Repr, DecidableEq

/-- The window computation of `VirtualTreeView.render`:
`startIndex = Math.floor(scrollTop / itemHeight) - overscan`,
`endIndex = Math.ceil((scrollTop + clientHeight) / itemHeight) + overscan`,
`validStartIndex = Math.max(0, startIndex)`,
`validEndIndex = Math.min(visibleData.length - 1, endIndex)`. -/
def computeWindow (scrollTop clientHeight itemHeight : ℚ) (overscan : ℤ)
    (totalVisible : ℕ) : Window :=
  let startIndex : ℤ := ⌊scrollTop / itemHeight⌋ - overscan
  let endIndex : ℤ := ⌈(scrollTop + clientHeight) / itemHeight⌉ + overscan
  ⟨max 0 startIndex, min ((totalVisible : ℤ) - 1) endIndex⟩

/-- C3: under the claimed preconditions the computed window is
`[max(0, floor(scrollOffset / itemHeight) - overscan),
min(totalVisible - 1, ceil((scrollOffset + viewportSize) / itemHeight) + overscan)]`. -/
theorem computeWindow_formula (scrollTop clientHeight itemHeight : ℚ)
    (overscan : ℤ) (totalVisible : ℕ)
    (h1 : 0 ≤ scrollTop) (h2 : 0 ≤ clientHeight) (h3 : 0 < itemHeight)
    (h4 : 0 ≤ overscan) (h5 : 0 < totalVisible) :
    computeWindow scrollTop clientHeight itemHeight overscan totalVisible =
      ⟨max 0 (⌊scrollTop / itemHeight⌋ - overscan),
        min ((totalVisible : ℤ) - 1)
          (⌈(scrollTop + clientHeight) / itemHeight⌉ + overscan)⟩ := rfl

/-- Witness for C3 at the specification's Scenario C: `itemHeight = 20`,
`overscan = 2`, `viewportSize = 100`, `scrollOffset = 40`,
`totalVisible = 50` gives window `[0, 9]`. -/
theorem computeWindow_formula_witness :
    (0 : ℚ) ≤ 40 ∧ (0 : ℚ) ≤ 100 ∧ (0 : ℚ) < 20 ∧ (0 : ℤ) ≤ 2 ∧ 0 < 50 ∧
      computeWindow 40 100 20 2 50 = ⟨0, 9⟩ := by
  refine ⟨by norm_num, by norm_num, by norm_num, by norm_num, by norm_num, ?_⟩
  rw [computeWindow_formula 40 100 20 2 50 (by norm_num) (by norm_num)
    (by norm_num) (by norm_num) (by norm_num)]
  norm_num [Window.mk.injEq]

/-- C7 counterexample: with `totalVisible = 0`, `scrollTop = 100`,
`clientHeight = 10`, `itemHeight = 20`, `overscan = 2` the code returns
`{startIndex 3, endIndex -1}`, not the claimed `{startIndex 0, endIndex -1}`. -/
theorem computeWindow_empty_counterexample :
    computeWindow 100 10 20 2 0 ≠ ⟨0, -1⟩ := by
  norm_num [computeWindow, Window.mk.injEq]

/-- C7 (amended): when the visible sequence is empty the window always has
`endIndex = -1` and denotes the empty index range
(`endIndex < startIndex`), for every scroll offset; but `startIndex` is
`max(0, floor(scrollOffset / itemHeight) - overscan)`, which is 0 only when
`floor(scrollOffset / itemHeight) ≤ overscan`. -/
theorem computeWindow_empty_amended (scrollTop clientHeight itemHeight : ℚ)
    (overscan : ℤ)
    (h1 : 0 ≤ scrollTop) (h2 : 0 ≤ clientHeight) (h3 : 0 < itemHeight)
    (h4 : 0 ≤ overscan) :
    (computeWindow scrollTop clientHeight itemHeight overscan 0).endIndex = -1 ∧
      (computeWindow scrollTop clientHeight itemHeight overscan 0).endIndex <
        (computeWindow scrollTop clientHeight itemHeight overscan 0).startIndex ∧
      (computeWindow scrollTop clientHeight itemHeight overscan 0).startIndex =
        max 0 (⌊scrollTop / itemHeight⌋ - overscan) := by
  have hceil : (0 : ℤ) ≤ ⌈(scrollTop + clientHeight) / itemHeight⌉ + overscan := by
    have : (0 : ℚ) ≤ (scrollTop + clientHeight) / itemHeight :=
      div_nonneg (by linarith) (le_of_lt h3)
    have := Int.ceil_nonneg this
    omega
  have hend : (computeWindow scrollTop clientHeight itemHeight overscan 0).endIndex = -1 := by
    show min ((0 : ℤ) - 1) _ = -1
    omega
  refine ⟨hend, ?_, rfl⟩
  rw [hend]
  show (-1 : ℤ) < max 0 (⌊scrollTop / itemHeight⌋ - overscan)
  have := le_max_left (0 : ℤ) (⌊scrollTop / itemHeight⌋ - overscan)
  omega

/-- Witness for C7 (amended) at `scrollTop = 100`, `clientHeight = 10`,
`itemHeight = 20`, `overscan = 2`: the window is the empty range `[3, -1]`. -/
theorem computeWindow_empty_amended_witness :
    (0 : ℚ) ≤ 100 ∧ (0 : ℚ) ≤ 10 ∧ (0 : ℚ) < 20 ∧ (0 : ℤ) ≤ 2 ∧
      ((computeWindow 100 10 20 2 0).endIndex = -1 ∧
        (computeWindow 100 10 20 2 0).endIndex <
          (computeWindow 100 10 20 2 0).startIndex ∧
        (computeWindow 100 10 20 2 0).startIndex =
          max 0 (⌊(100 : ℚ) / 20⌋ - 2)) :=
  ⟨by norm_num, by norm_num, by norm_num, by norm_num,
    computeWindow_empty_amended 100 10 20 2 (by norm_num) (by norm_num)
      (by norm_num) (by norm_num)⟩

end FileTree

namespace FileTree

/-- State of the scroll/render scheduling machinery built in
`VirtualTreeView.setupEventListeners` from `ScrollOptimizations.rAF`:
`ticking` is the closure flag of `rAF`; `scheduled` records whether a
`requestAnimationFrame` callback is pending; `containerScrollTop` is the
live `container.scrollTop`; `viewScrollTop` is the view's `this.scrollTop`
field; `renderLog` records the `scrollTop` used by each executed render
pass. -/
structure SchedState where
  ticking : Bool
  scheduled : Bool
  containerScrollTop : ℤ
  viewScrollTop : ℤ
  renderLog : List ℤ
deriving Repr, DecidableEq

/-- A scroll event at offset `o`: the browser updates
`container.scrollTop`, then the registered handler runs; per
`ScrollOptimizations.rAF`, if `ticking` is unset it requests an animation
frame and sets `ticking`, otherwise it does nothing.  The wrapped callback
takes no arguments and reads `container.scrollTop` when it eventually
runs. -/
def scrollEvent (s : SchedState) (o : ℤ) : SchedState :=
  let s1 := { s with containerScrollTop := o }
  if s1.ticking then s1
  else { s1 with ticking := true, scheduled := true }

/-- The next paint opportunity: if a callback is pending it executes
`this.scrollTop = this.container.scrollTop; this.render()` and clears
`ticking`.  The render pass is recorded with the offset it uses. -/
def paintTick (s : SchedState) : SchedState :=
  if s.scheduled then
    { s with
      viewScrollTop := s.containerScrollTop,
      renderLog := s.renderLog ++ [s.containerScrollTop],
      ticking := false, scheduled := false }
  else s

/-- Helper for C2: a cons-list's optional last element determines its
`getLastD` value. -/
theorem getLastD_of_getLast?_cons (o last : ℤ) (rest : List ℤ)
    (h : (o :: rest).getLast? = some last) : rest.getLastD o = last := by
  induction rest generalizing o with
  | nil => simp_all
  | cons b tl ih =>
    rw [List.getLastD_cons]
    exact ih b (by simpa [List.getLast?_cons_cons] using h)

/-- Helper for C2: once `ticking` is set, further scroll events only update
the live container offset. -/
theorem foldl_scrollEvent_ticking (offsets : List ℤ) :
    ∀ s : SchedState, s.ticking = true →
      offsets.foldl scrollEvent s =
        ⟨true, s.scheduled, offsets.getLastD s.containerScrollTop,
          s.viewScrollTop, s.renderLog⟩ := by
  induction offsets with
  | nil => intro s hs; cases s; simp_all
  | cons o rest ih =>
    intro s hs
    have h1 : scrollEvent s o =
        ⟨true, s.scheduled, o, s.viewScrollTop, s.renderLog⟩ := by
      cases s; simp_all [scrollEvent]
    simp only [List.foldl_cons, h1]
    rw [ih ⟨true, s.scheduled, o, s.viewScrollTop, s.renderLog⟩ rfl,
      List.getLastD_cons]

/-- C2: if one or more scroll events arrive while the scheduler is idle and
then the next paint opportunity fires, exactly one render pass executes,
and it uses the offset of the last event; intermediate offsets are
dropped. -/
theorem scroll_coalescing (s : SchedState) (offsets : List ℤ) (last : ℤ)
    (hidle : s.ticking = false) (hlast : offsets.getLast? = some last) :
    (paintTick (offsets.foldl scrollEvent s)).renderLog =
        s.renderLog ++ [last] ∧
      (paintTick (offsets.foldl scrollEvent s)).viewScrollTop = last := by
  cases offsets with
  | nil => simp at hlast
  | cons o rest =>
    have h1 : scrollEvent s o =
        ⟨true, true, o, s.viewScrollTop, s.renderLog⟩ := by
      cases s; simp_all [scrollEvent]
    have h2 : (o :: rest).foldl scrollEvent s =
        ⟨true, true, rest.getLastD o, s.viewScrollTop, s.renderLog⟩ := by
      simp only [List.foldl_cons, h1]
      rw [foldl_scrollEvent_ticking rest
        ⟨true, true, o, s.viewScrollTop, s.renderLog⟩ rfl]
    have h3 : rest.getLastD o = last :=
      getLastD_of_getLast?_cons o last rest hlast
    rw [h2, h3]
    simp [paintTick]

/-- Witness for C2: five rapid scroll events at offsets 1..5 from the idle
state produce exactly one render pass, at offset 5. -/
theorem scroll_coalescing_witness :
    ((⟨false, false, 0, 0, []⟩ : SchedState).ticking = false ∧
        ([1, 2, 3, 4, 5] : List ℤ).getLast? = some 5) ∧
      (paintTick (([1, 2, 3, 4, 5] : List ℤ).foldl scrollEvent
            ⟨false, false, 0, 0, []⟩)).renderLog = [] ++ [(5 : ℤ)] ∧
      (paintTick (([1, 2, 3, 4, 5] : List ℤ).foldl scrollEvent
            ⟨false, false, 0, 0, []⟩)).viewScrollTop = 5 :=
  ⟨⟨rfl, rfl⟩, scroll_coalescing ⟨false, false, 0, 0, []⟩ [1, 2, 3, 4, 5] 5
    rfl rfl⟩

end FileTree

namespace FileTree

/-- Visual state of one pooled DOM element: its content, attribute list and
class name.  (`_pooled` is a JS property, not a DOM attribute, so it never
occurs in `attributes`; the `created` list of `PoolState` plays its role.) -/
structure ElemState where
  innerHTML : String
  attributes : List (String × String)
  className : String
deriving Repr, DecidableEq

/-- A freshly created element (`document.createElement`). -/
def freshElem : ElemState := ⟨"", [], ""⟩

/-- State of a `NodePool`: `pool` is the free list (last element is the top
of the stack used by `push`/`pop`), `active` models the `activeNodes` JS
`Set` in insertion order (`none` is the `undefined` value added when
`acquire` pops an empty array), `created` lists the ids of all elements
ever created (each carrying the `_pooled` mark), and `elems` gives each
element's visual state. -/
structure PoolState where
  growthFactor : ℚ
  nextId : ℕ
  pool : List ℕ
  active : List (Option ℕ)
  created : List ℕ
  elems : ℕ → ElemState

/-- Create one element and push it onto the free list (one iteration of
the pool creation loop). -/
def createElemStep (s : PoolState) : PoolState :=
  { s with
    nextId := s.nextId + 1,
    pool := s.pool ++ [s.nextId],
    created := s.created ++ [s.nextId],
    elems := fun j => if j = s.nextId then freshElem else s.elems j }

/-- The loop body of the pool's `initialize(size)` method for a
non-negative count (the method name itself is abbreviated here). -/
def initElems : Nat → PoolState → PoolState
  | 0, s => s
  | k + 1, s => initElems k (createElemStep s)

/-- The pool's `initialize(size)` as called with a JS number: the loop
`for (let i = 0; i < size; i++)` performs no iterations when `size` is
negative. -/
def initElemsInt (size : ℤ) (s : PoolState) : PoolState :=
  initElems size.toNat s

/-- `NodePool.expand()`:
`currentSize = pool.length + activeNodes.size`;
`newElements = Math.ceil(currentSize * growthFactor) - currentSize`;
`initialize(newElements)`. -/
def expand (s : PoolState) : PoolState :=
  let currentSize : ℕ := s.pool.length + s.active.length
  let newElements : ℤ :=
    ⌈(currentSize : ℚ) * s.growthFactor⌉ - (currentSize : ℤ)
  initElemsInt newElements s

/-- `Set.prototype.add`: append if not already present. -/
def setAdd (l : List (Option ℕ)) (x : Option ℕ) : List (Option ℕ) :=
  if x ∈ l then l else l ++ [x]

/-- `NodePool.acquire()`: expand when the free list is empty, pop
(`Array.prototype.pop` returns `undefined` on an empty array and removes
nothing), record the popped value in `activeNodes`, and return it. -/
def acquire (s : PoolState) : Option ℕ × PoolState :=
  let s1 := if s.pool.isEmpty then expand s else s
  let e := s1.pool.getLast?
  (e, { s1 with pool := s1.pool.dropLast, active := setAdd s1.active e })

/-- `NodePool.resetElement(element)`: clear `innerHTML`, remove every
attribute whose name is not `_pooled`, remove the `style` attribute, clear
`className`. -/
def resetElement (e : ElemState) : ElemState :=
  let e1 := { e with innerHTML := "" }
  let e2 := { e1 with
    attributes := e1.attributes.filter fun a => a.1 == "_pooled" }
  let e3 := { e2 with
    attributes := e2.attributes.filter fun a => !(a.1 == "style") }
  { e3 with className := "" }

/-- `NodePool.release(element)`: ignore `undefined`, unmarked, or
already-free elements; otherwise reset the element, push it onto the free
list and delete it from `activeNodes`. -/
def release (e : Option ℕ) (s : PoolState) : PoolState :=
  match e with
  | none => s
  | some x =>
    if x ∈ s.created ∧ x ∉ s.pool then
      { s with
        elems := fun j => if j = x then resetElement (s.elems j) else s.elems j,
        pool := s.pool ++ [x],
        active := s.active.erase (some x) }
    else s

/-- `NodePool.releaseAll()`: release every tracked element (iterating the
`activeNodes` set in insertion order), then clear the set. -/
def releaseAll (s : PoolState) : PoolState :=
  let s1 := s.active.foldl (fun st e => release e st) s
  { s1 with active := [] }

/-- The record returned by `NodePool.getStats()`. -/
structure Stats where
  available : ℕ
  active : ℕ
  total : ℕ
deriving Repr, DecidableEq

/-- `NodePool.getStats()`: `available = pool.length`,
`active = activeNodes.size`, `total = pool.length + activeNodes.size`. -/
def getStats (s : PoolState) : Stats :=
  ⟨s.pool.length, s.active.length, s.pool.length + s.active.length⟩

/-- The `NodePool` constructor: store the growth factor and run
`initialize(initialSize)` on the empty pool. -/
def mkPool (initialSize : ℕ) (growthFactor : ℚ) : PoolState :=
  initElems initialSize ⟨growthFactor, 0, [], [], [], fun _ => freshElem⟩

/-- The public mutating operations of `NodePool`. -/
inductive PoolOp where
  | acquireOp : PoolOp
  | releaseOp : Option ℕ → PoolOp
  | releaseAllOp : PoolOp

/-- Apply one pool operation (discarding `acquire`'s return value). -/
def applyOp (s : PoolState) : PoolOp → PoolState
  | .acquireOp => (acquire s).2
  | .releaseOp e => release e s
  | .releaseAllOp => releaseAll s

/-- Run a sequence of pool operations. -/
def runOps (s : PoolState) (ops : List PoolOp) : PoolState :=
  ops.foldl applyOp s

end FileTree

namespace FileTree

/-- C4: along every operation sequence on a freshly constructed pool, the
stats satisfy `active + available = total`, and immediately after a further
`releaseAll()` the active count is 0.  (`getStats` computes `total` as
`available + active`, so conservation holds in every state; `releaseAll`
ends by clearing the active set.) -/
theorem pool_conservation (initialSize : ℕ) (gf : ℚ) (ops : List PoolOp) :
    ((getStats (runOps (mkPool initialSize gf) ops)).active +
        (getStats (runOps (mkPool initialSize gf) ops)).available =
      (getStats (runOps (mkPool initialSize gf) ops)).total) ∧
      (getStats (releaseAll (runOps (mkPool initialSize gf) ops))).active = 0 := by
  constructor
  · simp [getStats, Nat.add_comm]
  · simp [releaseAll, getStats]

/-- C8: every element that `release()` newly places on the free list has
been fully reset first: its content and class are cleared, and no attribute
other than a (never actually present) `_pooled` attribute survives. -/
theorem release_resets_handle (s : PoolState) (e : Option ℕ) (x : ℕ)
    (hnew : x ∈ (release e s).pool) (hold : x ∉ s.pool) :
    ((release e s).elems x).innerHTML = "" ∧
      ((release e s).elems x).className = "" ∧
      ∀ a ∈ ((release e s).elems x).attributes, a.1 = "_pooled" := by
  cases e with
  | none => exact absurd hnew hold
  | some y =>
    by_cases h : y ∈ s.created ∧ y ∉ s.pool
    · have hxy : x = y := by
        simp only [release, if_pos h] at hnew
        rcases List.mem_append.mp hnew with hx | hx
        · exact absurd hx hold
        · simpa using hx
      subst hxy
      have helem : (release (some x) s).elems x = resetElement (s.elems x) := by
        simp [release, h]
      rw [helem]
      refine ⟨rfl, rfl, ?_⟩
      intro a ha
      simp only [resetElement, List.mem_filter] at ha
      exact beq_iff_eq.mp ha.1.2
    · simp only [release, if_neg h] at hnew
      exact absurd hnew hold

/-- Concrete pool state for the C8 witness: one created element, id 0,
currently active and carrying content, attributes and a class. -/
def poolW8 : PoolState :=
  ⟨3 / 2, 1, [], [some 0], [0],
    fun _ => ⟨"<span>node<span>", [("data-node-id", "n1"), ("style", "top:0px")],
      "tree-node"⟩⟩

/-- Witness for C8: releasing element 0 of `poolW8` returns it to the free
list with content, class and attributes cleared. -/
theorem release_resets_handle_witness :
    (0 ∈ (release (some 0) poolW8).pool ∧ 0 ∉ poolW8.pool) ∧
      (((release (some 0) poolW8).elems 0).innerHTML = "" ∧
        ((release (some 0) poolW8).elems 0).className = "" ∧
        ∀ a ∈ ((release (some 0) poolW8).elems 0).attributes, a.1 = "_pooled") := by
  have h1 : 0 ∈ (release (some 0) poolW8).pool := by
    simp [release, poolW8]
  have h2 : (0 : ℕ) ∉ poolW8.pool := by
    simp [poolW8]
  exact ⟨⟨h1, h2⟩, release_resets_handle poolW8 (some 0) 0 h1 h2⟩

/-- Helper: running the creation loop adds exactly `k` elements. -/
theorem initElems_created_length (k : ℕ) :
    ∀ s : PoolState, (initElems k s).created.length = s.created.length + k := by
  induction k with
  | zero => intro s; rfl
  | succ n ih =>
    intro s
    show (initElems n (createElemStep s)).created.length = _
    rw [ih (createElemStep s)]
    simp [createElemStep]
    omega

/-- Helper: `release` never creates or destroys elements. -/
theorem release_created (e : Option ℕ) (s : PoolState) :
    (release e s).created = s.created := by
  cases e with
  | none => rfl
  | some x =>
    by_cases h : x ∈ s.created ∧ x ∉ s.pool
    · simp [release, h]
    · simp [release, h]

/-- Helper: folding `release` over a list never creates or destroys
elements. -/
theorem foldl_release_created (l : List (Option ℕ)) :
    ∀ s : PoolState, (l.foldl (fun st e => release e st) s).created = s.created := by
  induction l with
  | nil => intro s; rfl
  | cons e rest ih =>
    intro s
    simp only [List.foldl_cons]
    rw [ih, release_created]

/-- Helper: the number of elements after `acquire` in terms of the state
before. -/
theorem acquire_created_length (s : PoolState) :
    (acquire s).2.created.length =
      if s.pool.isEmpty then
        s.created.length +
          (⌈((s.pool.length + s.active.length : ℕ) : ℚ) * s.growthFactor⌉ -
            ((s.pool.length + s.active.length : ℕ) : ℤ)).toNat
      else s.created.length := by
  by_cases h : s.pool.isEmpty = true
  · simp only [acquire, h, if_true]
    show (expand s).created.length = _
    simp only [expand, initElemsInt]
    rw [initElems_created_length]
  · simp only [acquire, Bool.not_eq_true] at h ⊢
    simp [h]

/-- C9: no pool operation ever decreases the number of handles in
existence, and when `acquire()` finds the free list empty and the growth
factor is at least 1, the pool grows by exactly
`ceil(currentTotal * growthFactor) - currentTotal` new handles. -/
theorem pool_never_shrinks (s : PoolState) (op : PoolOp) :
    s.created.length ≤ (applyOp s op).created.length ∧
      (s.pool = [] → 1 ≤ s.growthFactor →
        ((acquire s).2.created.length : ℤ) =
          (s.created.length : ℤ) +
            (⌈(((getStats s).total : ℕ) : ℚ) * s.growthFactor⌉ -
              (((getStats s).total : ℕ) : ℤ))) := by
  constructor
  · cases op with
    | acquireOp =>
      show s.created.length ≤ (acquire s).2.created.length
      rw [acquire_created_length]
      by_cases h : s.pool.isEmpty = true
      · simp [h]
      · simp only [Bool.not_eq_true] at h
        simp [h]
    | releaseOp e =>
      show s.created.length ≤ (release e s).created.length
      rw [release_created]
    | releaseAllOp =>
      show s.created.length ≤ (releaseAll s).created.length
      show s.created.length ≤
        (s.active.foldl (fun st e => release e st) s).created.length
      rw [foldl_release_created]
  · intro hp hgf
    have hpe : s.pool.isEmpty = true := by simp [hp]
    rw [acquire_created_length, if_pos hpe]
    have htot : (getStats s).total = s.pool.length + s.active.length := rfl
    have hnn : (0 : ℤ) ≤
        ⌈((s.pool.length + s.active.length : ℕ) : ℚ) * s.growthFactor⌉ -
          ((s.pool.length + s.active.length : ℕ) : ℤ) := by
      have hle : (((s.pool.length + s.active.length : ℕ) : ℚ)) ≤
          ((s.pool.length + s.active.length : ℕ) : ℚ) * s.growthFactor := by
        nlinarith [Nat.cast_nonneg (α := ℚ) (s.pool.length + s.active.length)]
      have := Int.ceil_le_ceil hle
      simp only [Int.ceil_natCast] at this
      omega
    rw [htot, Nat.cast_add, Int.toNat_of_nonneg hnn]

/-- Concrete pool state for the C9 witness: two active elements, empty free
list, growth factor 3/2. -/
def poolW9 : PoolState :=
  ⟨3 / 2, 2, [], [some 0, some 1], [0, 1], fun _ => freshElem⟩

/-- Witness for C9 at `poolW9`: `acquire` on the empty free list grows the
pool by `ceil(2 * 3/2) - 2 = 1` element, and the element count does not
decrease. -/
theorem pool_never_shrinks_witness :
    (poolW9.pool = [] ∧ 1 ≤ poolW9.growthFactor) ∧
      poolW9.created.length ≤ (applyOp poolW9 .acquireOp).created.length ∧
      ((acquire poolW9).2.created.length : ℤ) =
        (poolW9.created.length : ℤ) +
          (⌈(((getStats poolW9).total : ℕ) : ℚ) * poolW9.growthFactor⌉ -
            (((getStats poolW9).total : ℕ) : ℤ)) := by
  have hgf : 1 ≤ poolW9.growthFactor := by norm_num [poolW9]
  exact ⟨⟨rfl, hgf⟩, (pool_never_shrinks poolW9 .acquireOp).1,
    (pool_never_shrinks poolW9 .acquireOp).2 rfl hgf⟩

/-- C10: calling `acquire()` on a pool whose total size is zero grows by
`ceil(0 * growthFactor) - 0 = 0` handles, returns `undefined`, and still
records it as active (the `activeNodes` set gains the `undefined` entry, so
the active count becomes 1); no usable handle is produced. -/
theorem acquire_on_empty_total (s : PoolState) (h : (getStats s).total = 0) :
    (acquire s).1 = none ∧ (getStats (acquire s).2).active = 1 ∧
      (acquire s).2.created = s.created := by
  have hlen : s.pool.length + s.active.length = 0 := h
  have hp : s.pool = [] := List.length_eq_zero.mp (by omega)
  have ha : s.active = [] := List.length_eq_zero.mp (by omega)
  have hexp : expand s = s := by
    simp [expand, initElemsInt, hp, ha, initElems]
  have hpe : s.pool.isEmpty = true := by simp [hp]
  simp [acquire, hpe, hexp, hp, ha, setAdd, getStats]

/-- Witness for C10: a pool constructed with initial size 0. -/
theorem acquire_on_empty_total_witness :
    (getStats (mkPool 0 (3 / 2))).total = 0 ∧
      ((acquire (mkPool 0 (3 / 2))).1 = none ∧
        (getStats (acquire (mkPool 0 (3 / 2))).2).active = 1 ∧
        (acquire (mkPool 0 (3 / 2))).2.created = (mkPool 0 (3 / 2)).created) :=
  ⟨rfl, acquire_on_empty_total (mkPool 0 (3 / 2)) rfl⟩

end FileTree

namespace FileTree

/-- State observable across a `VirtualTreeView.render` pass: the pool and
the list of handle ids currently attached to `itemsContainer`. -/
structure ViewState where
  np : PoolState
  containerChildren : List ℕ

/-- The per-node loop of `render` (`visibleNodes.forEach`): each iteration
may throw (modelled by the oracle `failAt` naming the failing iteration),
otherwise it acquires a handle and appends it to the container;
`acquire` returning `undefined` also throws (the immediate
`element.style...` access).  Failure propagates the state at the throw
point. -/
def renderNodes : ViewState → ℕ → ℕ → Option ℕ → Except ViewState ViewState
  | st, _, 0, _ => .ok st
  | st, idx, m + 1, failAt =>
    if failAt = some idx then .error st
    else
      match acquire st.np with
      | (none, np2) => .error ⟨np2, st.containerChildren⟩
      | (some x, np2) =>
        renderNodes ⟨np2, st.containerChildren ++ [x]⟩ (idx + 1) m failAt

/-- `VirtualTreeView.render`: release every pooled handle
(`nodePool.releaseAll()`), empty `itemsContainer`, then render the `n`
visible nodes. -/
def renderPass (st : ViewState) (n : ℕ) (failAt : Option ℕ) :
    Except ViewState ViewState :=
  renderNodes ⟨releaseAll st.np, []⟩ 0 n failAt

/-- Whether a render pass failed. -/
def renderFailed : Except ViewState ViewState → Bool
  | .error _ => true
  | .ok _ => false

/-- The container contents after a render pass, failed or not. -/
def containerAfter : Except ViewState ViewState → List ℕ
  | .ok st => st.containerChildren
  | .error st => st.containerChildren

/-- Concrete previous-frame state for C5: handle 1 is on screen, handle 0
is free, both created. -/
def viewC5 : ViewState :=
  ⟨⟨3 / 2, 2, [0], [some 1], [0, 1], fun _ => freshElem⟩, [1]⟩

/-- C5 counterexample: a render pass that fails at its first node leaves
the container empty, not showing the previous frame's handle 1: the pass
released all handles and emptied the container before repopulating. -/
theorem render_failure_counterexample :
    renderFailed (renderPass viewC5 1 (some 0)) = true ∧
      containerAfter (renderPass viewC5 1 (some 0)) ≠ viewC5.containerChildren := by
  constructor
  · simp [renderPass, renderNodes, renderFailed]
  · simp [renderPass, renderNodes, containerAfter, viewC5]

/-- C5 (amended): a failed render pass does not preserve the previous
frame: `render` releases all handles and empties the container before
repopulating, so a failure while rendering leaves only the nodes rendered
before the failure on screen; in particular a failure at the first node
leaves the viewport blank, with every previous handle already returned to
the pool. -/
theorem render_failure_blanks_viewport (st : ViewState) (n : ℕ)
    (hn : 0 < n) :
    renderPass st n (some 0) = Except.error ⟨releaseAll st.np, []⟩ := by
  obtain ⟨m, rfl⟩ : ∃ m, n = m + 1 := ⟨n - 1, by omega⟩
  simp [renderPass, renderNodes]

/-- Witness for C5 (amended) at the concrete previous frame `viewC5`. -/
theorem render_failure_blanks_viewport_witness :
    0 < 1 ∧
      renderPass viewC5 1 (some 0) =
        Except.error ⟨releaseAll viewC5.np, []⟩ :=
  ⟨Nat.one_pos, render_failure_blanks_viewport viewC5 1 Nat.one_pos⟩

end FileTree
